import Mathlib

/-!
Shallow embedding of the indicator pipeline of dailyalerts (src/main.py).

The script computes three technical indicators (RSI, MACD + signal line,
simulated MVRV) over a daily price series with pandas, formats a valuation
report from the latest row, and processes each configured asset inside a
try/except so one asset's failure does not abort the others.

Pandas/numpy float arithmetic is modelled by the type PFloat: an IEEE-like
value that is NaN, plus or minus infinity, or a finite rational.  The
pandas operations used by the script (diff, clip, rolling mean with the
default min_periods = window, ewm with adjust = False, elementwise and
broadcast arithmetic) are embedded as functions on lists of PFloat.
-/

/-- IEEE-like float value: NaN, infinities, or a finite rational. -/
inductive PFloat where
  | nan : PFloat
  | inf : PFloat
  | ninf : PFloat
  | fin (q : ℚ) : PFloat
deriving DecidableEq, Repr

namespace PFloat

/-- IEEE addition restricted to the cases that arise: NaN propagates,
opposite infinities give NaN. -/
def add : PFloat → PFloat → PFloat
  | nan, _ => nan
  | _, nan => nan
  | inf, ninf => nan
  | ninf, inf => nan
  | inf, _ => inf
  | _, inf => inf
  | ninf, _ => ninf
  | _, ninf => ninf
  | fin a, fin b => fin (a + b)

/-- IEEE negation. -/
def neg : PFloat → PFloat
  | nan => nan
  | inf => ninf
  | ninf => inf
  | fin a => fin (-a)

/-- IEEE subtraction. -/
def sub (x y : PFloat) : PFloat := add x (neg y)

/-- IEEE multiplication: NaN propagates, infinity times zero is NaN. -/
def mul : PFloat → PFloat → PFloat
  | nan, _ => nan
  | _, nan => nan
  | inf, inf => inf
  | inf, ninf => ninf
  | ninf, inf => ninf
  | ninf, ninf => inf
  | inf, fin b => if b = 0 then nan else if 0 < b then inf else ninf
  | fin a, inf => if a = 0 then nan else if 0 < a then inf else ninf
  | ninf, fin b => if b = 0 then nan else if 0 < b then ninf else inf
  | fin a, ninf => if a = 0 then nan else if 0 < a then ninf else inf
  | fin a, fin b => fin (a * b)

/-- numpy float division: NaN propagates, 0/0 is NaN, x/0 is a signed
infinity, finite/infinite is 0. -/
def div : PFloat → PFloat → PFloat
  | nan, _ => nan
  | _, nan => nan
  | inf, inf => nan
  | inf, ninf => nan
  | ninf, inf => nan
  | ninf, ninf => nan
  | inf, fin b => if b < 0 then ninf else inf
  | ninf, fin b => if b < 0 then inf else ninf
  | fin _, inf => fin 0
  | fin _, ninf => fin 0
  | fin a, fin b =>
      if b = 0 then (if a = 0 then nan else if 0 < a then inf else ninf)
      else fin (a / b)

/-- pandas Series.clip(lower=0): pointwise max with 0, NaN propagates. -/
def clipLower0 : PFloat → PFloat
  | nan => nan
  | inf => inf
  | ninf => fin 0
  | fin a => fin (max a 0)

/-- pandas Series.clip(upper=0): pointwise min with 0, NaN propagates. -/
def clipUpper0 : PFloat → PFloat
  | nan => nan
  | inf => fin 0
  | ninf => ninf
  | fin a => fin (min a 0)

/-- Python float strict comparison: any comparison with NaN is False. -/
def lt : PFloat → PFloat → Bool
  | fin a, fin b => decide (a < b)
  | fin _, inf => true
  | ninf, fin _ => true
  | ninf, inf => true
  | _, _ => false

end PFloat

/-- pandas Series.diff(): first entry NaN, then successive differences. -/
def diff : List PFloat → List PFloat
  | [] => []
  | x :: xs => PFloat.nan :: List.zipWith PFloat.sub xs (x :: xs)

/-- NaN-propagating sum of a list of floats (empty sum is 0). -/
def psum (xs : List PFloat) : PFloat := xs.foldr PFloat.add (PFloat.fin 0)

/-- pandas Series.rolling(window=w).mean() with the default
min_periods = w: entry i is NaN while fewer than w observations exist,
otherwise the mean of the trailing w values (NaN if any of them is NaN,
via the NaN-propagating sum). -/
def rollingMean (w : Nat) (xs : List PFloat) : List PFloat :=
  (List.range xs.length).map (fun i =>
    if i + 1 < w then PFloat.nan
    else PFloat.div (psum ((xs.take (i + 1)).drop (i + 1 - w))) (PFloat.fin w))

/-- calculate_rsi intermediate: average gain over the trailing window,
gain = delta.clip(lower=0). -/
def avg_gain (prices : List PFloat) (window : Nat) : List PFloat :=
  rollingMean window ((diff prices).map PFloat.clipLower0)

/-- calculate_rsi intermediate: average loss over the trailing window,
loss = -delta.clip(upper=0). -/
def avg_loss (prices : List PFloat) (window : Nat) : List PFloat :=
  rollingMean window ((diff prices).map (fun d => (PFloat.clipUpper0 d).neg))

/-- The pointwise transformation rsi = 100 - 100 / (1 + rs) applied to the
rs series in calculate_rsi. -/
def rsiOf (r : PFloat) : PFloat :=
  PFloat.sub (PFloat.fin 100) (PFloat.div (PFloat.fin 100) (PFloat.add (PFloat.fin 1) r))

/-- src/main.py calculate_rsi: rs = avg_gain / avg_loss,
rsi = 100 - 100 / (1 + rs). -/
def calculate_rsi (prices : List PFloat) (window : Nat := 14) : List PFloat :=
  (List.zipWith PFloat.div (avg_gain prices window) (avg_loss prices window)).map rsiOf

/-- Recurrence of pandas ewm(span, adjust=False).mean() after the seed:
y i = alpha * x i + (1 - alpha) * y (i-1). -/
def ewmGo (alpha : ℚ) (prev : PFloat) : List PFloat → List PFloat
  | [] => []
  | x :: xs =>
      let y := PFloat.add (PFloat.mul (PFloat.fin alpha) x)
        (PFloat.mul (PFloat.fin (1 - alpha)) prev)
      y :: ewmGo alpha y xs

/-- pandas ewm(span, adjust=False).mean(): seeded with the first value,
smoothing factor alpha = 2 / (span + 1). -/
def ewm (span : Nat) : List PFloat → List PFloat
  | [] => []
  | x :: xs => x :: ewmGo (2 / ((span : ℚ) + 1)) x xs

/-- src/main.py calculate_macd: MACD = EMA(short) - EMA(long), signal
line = EMA(signal) of the MACD series. -/
def calculate_macd (prices : List PFloat) (short : Nat := 12) (long : Nat := 26)
    (signal : Nat := 9) : List PFloat × List PFloat :=
  let ema_short := ewm short prices
  let ema_long := ewm long prices
  let macd := List.zipWith PFloat.sub ema_short ema_long
  (macd, ewm signal macd)

/-- src/main.py simulate_mvrv: realized price is the trailing 30-sample
rolling mean, MVRV = price / realized price. -/
def simulate_mvrv (prices : List PFloat) : List PFloat :=
  List.zipWith PFloat.div prices (rollingMean 30 prices)

/-- One row of the augmented data frame (Price plus the four computed
indicator columns), as read by generate_report from df.iloc[-1]. -/
structure FrameRow where
  price : PFloat
  rsi : PFloat
  macd : PFloat
  signal : PFloat
  mvrv : PFloat
deriving DecidableEq, Repr

/-- The data frame built in the main loop: the price column augmented
with the RSI, MACD, Signal and MVRV columns. -/
def buildFrame (prices : List PFloat) : List FrameRow :=
  let rsi := calculate_rsi prices
  let md := calculate_macd prices
  let mvrv := simulate_mvrv prices
  (List.range prices.length).map (fun i =>
    { price := prices.getD i PFloat.nan
      rsi := rsi.getD i PFloat.nan
      macd := md.1.getD i PFloat.nan
      signal := md.2.getD i PFloat.nan
      mvrv := mvrv.getD i PFloat.nan })

/-- generate_report RSI zone: Oversold iff RSI < 30 (a NaN comparison is
False, so NaN falls into the else branch). -/
def rsiZone (r : PFloat) : String :=
  if r.lt (PFloat.fin 30) then "Oversold" else "Neutral/Bullish"

/-- generate_report MACD trend: Bullish iff MACD > Signal. -/
def macdTrend (m s : PFloat) : String :=
  if s.lt m then "Bullish" else "Bearish"

/-- generate_report MVRV classification: Undervalued iff MVRV < 1.0. -/
def mvrvClass (v : PFloat) : String :=
  if v.lt (PFloat.fin 1) then "Undervalued" else "Fairly Valued"

/-- The report produced by generate_report: the latest row's values and
the three classification strings interpolated into the report text. -/
structure Report where
  row : FrameRow
  zone : String
  trend : String
  cls : String
deriving DecidableEq, Repr

/-- src/main.py generate_report: reads df.iloc[-1] (an IndexError on an
empty frame, modelled as none) and always succeeds otherwise: Python
string formatting renders NaN as the text "nan" instead of raising, and
every classification comparison with NaN is False. -/
def generate_report (frame : List FrameRow) : Option Report :=
  match frame.getLast? with
  | none => none
  | some latest =>
      some { row := latest
             zone := rsiZone latest.rsi
             trend := macdTrend latest.macd latest.signal
             cls := mvrvClass latest.mvrv }

/-- Outcome of one asset's pipeline in the main loop: a report, or the
message printed by the per-asset except-branch. -/
def processAsset (fetched : Except String (List PFloat)) : Except String Report :=
  match fetched with
  | Except.error e => Except.error e
  | Except.ok prices =>
      match generate_report (buildFrame prices) with
      | none => Except.error "IndexError"
      | some r => Except.ok r

/-- The main loop: every configured asset is processed inside try/except,
so each asset yields an outcome and a failure never aborts the loop. -/
def runAll (assets : List (String × Except String (List PFloat))) :
    List (String × Except String Report) :=
  assets.map (fun a => (a.1, processAsset a.2))

/-! ### Basic facts about PFloat arithmetic -/

namespace PFloat

theorem nan_add (x : PFloat) : add nan x = nan := by cases x <;> rfl

theorem add_nan (x : PFloat) : add x nan = nan := by cases x <;> rfl

theorem nan_div (x : PFloat) : div nan x = nan := by cases x <;> rfl

theorem div_nan (x : PFloat) : div x nan = nan := by cases x <;> rfl

theorem sub_nan (x : PFloat) : sub x nan = nan := by cases x <;> rfl

theorem add_fin (a b : ℚ) : add (fin a) (fin b) = fin (a + b) := rfl

theorem sub_fin (a b : ℚ) : sub (fin a) (fin b) = fin (a - b) := by
  show fin (a + -b) = fin (a - b)
  rw [← sub_eq_add_neg]

theorem mul_fin (a b : ℚ) : mul (fin a) (fin b) = fin (a * b) := rfl

theorem div_fin (a b : ℚ) (hb : b ≠ 0) : div (fin a) (fin b) = fin (a / b) := by
  simp [div, hb]

theorem lt_irrefl (x : PFloat) : x.lt x = false := by
  cases x <;> simp [lt]

end PFloat

/-- rsiOf maps NaN to NaN. -/
theorem rsiOf_nan : rsiOf PFloat.nan = PFloat.nan := rfl

/-! ### Length preservation -/

/-- diff preserves the length of the series. -/
theorem diff_length (xs : List PFloat) : (diff xs).length = xs.length := by
  cases xs with
  | nil => rfl
  | cons x t => simp [diff, List.length_zipWith]

/-- rollingMean preserves the length of the series. -/
theorem rollingMean_length (w : Nat) (xs : List PFloat) :
    (rollingMean w xs).length = xs.length := by
  simp [rollingMean]

/-- avg_gain has the length of the price series. -/
theorem avg_gain_length (prices : List PFloat) (w : Nat) :
    (avg_gain prices w).length = prices.length := by
  simp [avg_gain, rollingMean_length, diff_length]

/-- avg_loss has the length of the price series. -/
theorem avg_loss_length (prices : List PFloat) (w : Nat) :
    (avg_loss prices w).length = prices.length := by
  simp [avg_loss, rollingMean_length, diff_length]

/-- calculate_rsi has the length of the price series. -/
theorem calculate_rsi_length (prices : List PFloat) (w : Nat) :
    (calculate_rsi prices w).length = prices.length := by
  simp [calculate_rsi, List.length_zipWith, avg_gain_length, avg_loss_length]

/-- The ewm recurrence preserves length. -/
theorem ewmGo_length (alpha : ℚ) (prev : PFloat) (xs : List PFloat) :
    (ewmGo alpha prev xs).length = xs.length := by
  induction xs generalizing prev with
  | nil => rfl
  | cons x t ih => simp [ewmGo, ih]

/-- ewm preserves the length of the series. -/
theorem ewm_length (span : Nat) (xs : List PFloat) :
    (ewm span xs).length = xs.length := by
  cases xs with
  | nil => rfl
  | cons x t => simp [ewm, ewmGo_length]

/-- The MACD series has the length of the price series. -/
theorem macd_length (prices : List PFloat) :
    (calculate_macd prices).1.length = prices.length := by
  simp [calculate_macd, List.length_zipWith, ewm_length]

/-- The signal-line series has the length of the price series. -/
theorem signal_length (prices : List PFloat) :
    (calculate_macd prices).2.length = prices.length := by
  simp [calculate_macd, ewm_length, List.length_zipWith]

/-- simulate_mvrv has the length of the price series. -/
theorem simulate_mvrv_length (prices : List PFloat) :
    (simulate_mvrv prices).length = prices.length := by
  simp [simulate_mvrv, List.length_zipWith, rollingMean_length]

/-! ### Pointwise access -/

/-- In-bounds entry of a rollingMean series. -/
theorem rollingMean_getD (w : Nat) (xs : List PFloat) (i : Nat) (hi : i < xs.length) :
    (rollingMean w xs).getD i PFloat.nan =
      if i + 1 < w then PFloat.nan
      else PFloat.div (psum ((xs.take (i + 1)).drop (i + 1 - w))) (PFloat.fin w) := by
  rw [List.getD_eq_getElem _ _ (by simpa [rollingMean_length] using hi)]
  simp [rollingMean]

/-- In-bounds entry of a zipWith of two series. -/
theorem zipWith_getD {α : Type} (f : α → α → α) (xs ys : List α) (i : Nat) (d : α)
    (hx : i < xs.length) (hy : i < ys.length) :
    (List.zipWith f xs ys).getD i d = f (xs.getD i d) (ys.getD i d) := by
  rw [List.getD_eq_getElem _ _ (by simp [List.length_zipWith]; omega),
    List.getD_eq_getElem _ _ hx, List.getD_eq_getElem _ _ hy, List.getElem_zipWith]

/-- In-bounds entry of a mapped series. -/
theorem map_getD {α β : Type} (f : α → β) (xs : List α) (i : Nat) (d : β) (d' : α)
    (hi : i < xs.length) :
    (xs.map f).getD i d = f (xs.getD i d') := by
  rw [List.getD_eq_getElem _ _ (by simpa using hi), List.getD_eq_getElem _ _ hi,
    List.getElem_map]

/-! ### Membership helpers -/

/-- Every element of a zipWith satisfies P when f sends members to P. -/
theorem zipWith_forall {α β γ : Type} {f : α → β → γ} {P : γ → Prop} :
    ∀ {xs : List α} {ys : List β}, (∀ x ∈ xs, ∀ y ∈ ys, P (f x y)) →
      ∀ z ∈ List.zipWith f xs ys, P z := by
  intro xs
  induction xs with
  | nil => intro ys _ z hz; simp at hz
  | cons x t ih =>
      intro ys h z hz
      cases ys with
      | nil => simp at hz
      | cons y u =>
          simp only [List.zipWith_cons_cons, List.mem_cons] at hz
          rcases hz with rfl | hz
          · exact h x (by simp) y (by simp)
          · exact ih (fun a ha b hb => h a (by simp [ha]) b (by simp [hb])) z hz

/-- A NaN anywhere in a series makes its NaN-propagating sum NaN. -/
theorem psum_nan {xs : List PFloat} (h : PFloat.nan ∈ xs) : psum xs = PFloat.nan := by
  induction xs with
  | nil => simp at h
  | cons x t ih =>
      rcases List.mem_cons.mp h with rfl | h
      · show PFloat.add PFloat.nan (psum t) = PFloat.nan
        exact PFloat.nan_add _
      · show PFloat.add x (psum t) = PFloat.nan
        rw [ih h]
        exact PFloat.add_nan _

/-! ### Sign and definedness of the intermediate series -/

/-- A value that is either NaN or a nonnegative finite rational. -/
def NN (x : PFloat) : Prop := x = PFloat.nan ∨ ∃ q : ℚ, x = PFloat.fin q ∧ 0 ≤ q

/-- A value that is either NaN or finite. -/
def NF (x : PFloat) : Prop := x = PFloat.nan ∨ ∃ q : ℚ, x = PFloat.fin q

/-- The NaN-propagating sum of NaN-or-nonnegative values is NaN or
nonnegative. -/
theorem psum_NN {xs : List PFloat} (h : ∀ x ∈ xs, NN x) : NN (psum xs) := by
  induction xs with
  | nil => exact Or.inr ⟨0, rfl, le_refl 0⟩
  | cons x t ih =>
      have hx := h x (by simp)
      have ht := ih (fun a ha => h a (by simp [ha]))
      show NN (PFloat.add x (psum t))
      rcases hx with rfl | ⟨a, rfl, ha⟩
      · exact Or.inl (PFloat.nan_add _)
      · rcases ht with hnan | ⟨b, hb, hb0⟩
        · rw [hnan]; exact Or.inl (PFloat.add_nan _)
        · rw [hb, PFloat.add_fin]
          exact Or.inr ⟨a + b, rfl, by linarith⟩

/-- The NaN-propagating sum of finitely many positive finite values is a
finite rational, positive when the list is nonempty. -/
theorem psum_pos {xs : List PFloat} (h : ∀ x ∈ xs, ∃ q : ℚ, x = PFloat.fin q ∧ 0 < q) :
    ∃ s : ℚ, psum xs = PFloat.fin s ∧ 0 ≤ s ∧ (xs ≠ [] → 0 < s) := by
  induction xs with
  | nil => exact ⟨0, rfl, le_refl 0, fun hne => absurd rfl hne⟩
  | cons x t ih =>
      obtain ⟨q, rfl, hq⟩ := h x (by simp)
      obtain ⟨s, hs, hs0, _⟩ := ih (fun a ha => h a (by simp [ha]))
      refine ⟨q + s, ?_, by linarith, fun _ => by linarith⟩
      show PFloat.add (PFloat.fin q) (psum t) = _
      rw [hs, PFloat.add_fin]

/-- The sum of k copies of a finite value c is the finite value k * c. -/
theorem psum_replicate (k : Nat) (c : ℚ) :
    psum (List.replicate k (PFloat.fin c)) = PFloat.fin (k * c) := by
  induction k with
  | zero => show PFloat.fin 0 = PFloat.fin ((0 : ℚ) * c); rw [zero_mul]
  | succ k ih =>
      show PFloat.add (PFloat.fin c) (psum (List.replicate k (PFloat.fin c))) = _
      rw [ih, PFloat.add_fin]
      congr 1
      push_cast
      ring

/-- Every entry of the diff of a finite price series is NaN or finite. -/
theorem diff_NF {prices : List ℚ} : ∀ x ∈ diff (prices.map PFloat.fin), NF x := by
  cases prices with
  | nil => intro x hx; simp [diff] at hx
  | cons p t =>
      intro x hx
      simp only [List.map_cons, diff, List.mem_cons] at hx
      rcases hx with rfl | hx
      · exact Or.inl rfl
      · refine zipWith_forall (f := PFloat.sub) (P := NF) ?_ x hx
        intro a ha b hb
        simp only [← List.map_cons] at hb
        obtain ⟨qa, _, rfl⟩ := List.mem_map.mp ha
        obtain ⟨qb, _, rfl⟩ := List.mem_map.mp hb
        exact Or.inr ⟨qa - qb, PFloat.sub_fin qa qb⟩

/-- Gains (clipped deltas) are NaN or nonnegative. -/
theorem gains_NN {prices : List ℚ} :
    ∀ x ∈ (diff (prices.map PFloat.fin)).map PFloat.clipLower0, NN x := by
  intro x hx
  obtain ⟨d, hd, rfl⟩ := List.mem_map.mp hx
  rcases diff_NF d hd with rfl | ⟨q, rfl⟩
  · exact Or.inl rfl
  · exact Or.inr ⟨max q 0, rfl, le_max_right q 0⟩

/-- Losses (negated upper-clipped deltas) are NaN or nonnegative. -/
theorem losses_NN {prices : List ℚ} :
    ∀ x ∈ (diff (prices.map PFloat.fin)).map (fun d => (PFloat.clipUpper0 d).neg), NN x := by
  intro x hx
  obtain ⟨d, hd, rfl⟩ := List.mem_map.mp hx
  rcases diff_NF d hd with rfl | ⟨q, rfl⟩
  · exact Or.inl rfl
  · exact Or.inr ⟨-(min q 0), rfl, by simp [min_le_iff]⟩

/-- Every entry of a rolling mean of NaN-or-nonnegative values is NaN or
nonnegative. -/
theorem rollingMean_NN {w : Nat} (hw : 0 < w) {xs : List PFloat}
    (h : ∀ x ∈ xs, NN x) : ∀ y ∈ rollingMean w xs, NN y := by
  intro y hy
  obtain ⟨i, _, rfl⟩ := List.mem_map.mp hy
  by_cases hiw : i + 1 < w
  · simp only [if_pos hiw]; exact Or.inl rfl
  · simp only [if_neg hiw]
    have hwin : ∀ x ∈ (xs.take (i + 1)).drop (i + 1 - w), NN x := by
      intro x hx
      exact h x (List.mem_of_mem_take (List.mem_of_mem_drop hx))
    rcases psum_NN hwin with hnan | ⟨s, hs, hs0⟩
    · rw [hnan]; exact Or.inl (PFloat.nan_div _)
    · rw [hs, PFloat.div_fin s w (by exact_mod_cast hw.ne')]
      exact Or.inr ⟨s / w, rfl, div_nonneg hs0 (by positivity)⟩

/-- Entries of avg_gain are NaN or nonnegative. -/
theorem avg_gain_NN {prices : List ℚ} {w : Nat} (hw : 0 < w) :
    ∀ x ∈ avg_gain (prices.map PFloat.fin) w, NN x :=
  rollingMean_NN hw gains_NN

/-- Entries of avg_loss are NaN or nonnegative. -/
theorem avg_loss_NN {prices : List ℚ} {w : Nat} (hw : 0 < w) :
    ∀ x ∈ avg_loss (prices.map PFloat.fin) w, NN x :=
  rollingMean_NN hw losses_NN

/-- The pointwise RSI formula applied to the quotient of two
NaN-or-nonnegative values is NaN or a finite value in [0, 100]. -/
theorem rsiOf_div_cases {a b : PFloat} (ha : NN a) (hb : NN b) :
    rsiOf (PFloat.div a b) = PFloat.nan ∨
      ∃ q : ℚ, rsiOf (PFloat.div a b) = PFloat.fin q ∧ 0 ≤ q ∧ q ≤ 100 := by
  rcases ha with rfl | ⟨ga, rfl, hga⟩
  · left; rw [PFloat.nan_div, rsiOf_nan]
  rcases hb with rfl | ⟨la, rfl, hla⟩
  · left; rw [PFloat.div_nan, rsiOf_nan]
  by_cases hla0 : la = 0
  · subst hla0
    by_cases hga0 : ga = 0
    · subst hga0
      left
      show rsiOf (PFloat.div (PFloat.fin 0) (PFloat.fin 0)) = PFloat.nan
      rfl
    · right
      refine ⟨100, ?_, by norm_num, le_refl 100⟩
      have hdiv : PFloat.div (PFloat.fin ga) (PFloat.fin 0) = PFloat.inf := by
        simp [PFloat.div, hga0, lt_of_le_of_ne hga (Ne.symm hga0)]
      rw [hdiv]
      show PFloat.fin (100 + -0) = PFloat.fin 100
      norm_num
  · have hlapos : 0 < la := lt_of_le_of_ne hla (Ne.symm hla0)
    right
    have hr0 : 0 ≤ ga / la := div_nonneg hga hla
    have h1r : (0 : ℚ) < 1 + ga / la := by linarith
    rw [PFloat.div_fin ga la hla0]
    unfold rsiOf
    rw [PFloat.add_fin, PFloat.div_fin 100 (1 + ga / la) h1r.ne', PFloat.sub_fin]
    refine ⟨100 - 100 / (1 + ga / la), rfl, ?_, ?_⟩
    · have : 100 / (1 + ga / la) ≤ 100 := div_le_self (by norm_num) (by linarith)
      linarith
    · have : 0 ≤ 100 / (1 + ga / la) := div_nonneg (by norm_num) h1r.le
      linarith

/-! ### EMA lemmas -/

/-- The ewm recurrence keeps finite values finite. -/
theorem ewmGo_fin {alpha : ℚ} :
    ∀ {xs : List PFloat}, (∀ x ∈ xs, ∃ q : ℚ, x = PFloat.fin q) →
      ∀ p : ℚ, ∀ y ∈ ewmGo alpha (PFloat.fin p) xs, ∃ q : ℚ, y = PFloat.fin q := by
  intro xs
  induction xs with
  | nil => intro _ p y hy; simp [ewmGo] at hy
  | cons x t ih =>
      intro h p y hy
      obtain ⟨qx, rfl⟩ := h x (by simp)
      simp only [ewmGo, List.mem_cons, PFloat.mul_fin, PFloat.add_fin] at hy
      rcases hy with rfl | hy
      · exact ⟨_, rfl⟩
      · exact ih (fun a ha => h a (by simp [ha])) _ y hy

/-- EMAs of an all-finite series are all finite. -/
theorem ewm_fin {span : Nat} {xs : List PFloat}
    (h : ∀ x ∈ xs, ∃ q : ℚ, x = PFloat.fin q) :
    ∀ y ∈ ewm span xs, ∃ q : ℚ, y = PFloat.fin q := by
  cases xs with
  | nil => intro y hy; simp [ewm] at hy
  | cons x t =>
      intro y hy
      obtain ⟨qx, hx⟩ := h x (by simp)
      subst hx
      simp only [ewm, List.mem_cons] at hy
      rcases hy with rfl | hy
      · exact ⟨qx, rfl⟩
      · exact ewmGo_fin (fun a ha => h a (by simp [ha])) qx y hy

/-- The ewm recurrence is a fixed point on a constant series. -/
theorem ewmGo_const (alpha c : ℚ) :
    ∀ m : Nat, ewmGo alpha (PFloat.fin c) (List.replicate m (PFloat.fin c)) =
      List.replicate m (PFloat.fin c) := by
  intro m
  induction m with
  | zero => rfl
  | succ m ih =>
      rw [List.replicate_succ]
      show (PFloat.add (PFloat.mul (PFloat.fin alpha) (PFloat.fin c))
          (PFloat.mul (PFloat.fin (1 - alpha)) (PFloat.fin c))) ::
        ewmGo alpha _ (List.replicate m (PFloat.fin c)) = _
      rw [PFloat.mul_fin, PFloat.mul_fin, PFloat.add_fin,
        show alpha * c + (1 - alpha) * c = c by ring, ih]

/-- The EMA of a constant series is that constant series. -/
theorem ewm_const (span : Nat) (c : ℚ) (n : Nat) :
    ewm span (List.replicate n (PFloat.fin c)) = List.replicate n (PFloat.fin c) := by
  cases n with
  | zero => rfl
  | succ n =>
      rw [List.replicate_succ]
      show PFloat.fin c :: ewmGo _ (PFloat.fin c) (List.replicate n (PFloat.fin c)) = _
      rw [ewmGo_const]

/-! ### Indexed access to the computed series -/

/-- Entry i of the RSI series is the pointwise RSI formula applied to the
quotient of the trailing average gain and average loss. -/
theorem calculate_rsi_getD (prices : List PFloat) (w i : Nat) (hi : i < prices.length) :
    (calculate_rsi prices w).getD i PFloat.nan =
      rsiOf (PFloat.div ((avg_gain prices w).getD i PFloat.nan)
        ((avg_loss prices w).getD i PFloat.nan)) := by
  unfold calculate_rsi
  rw [map_getD _ _ i _ PFloat.nan
      (by rw [List.length_zipWith, avg_gain_length, avg_loss_length]; omega),
    zipWith_getD _ _ _ i _ (by rw [avg_gain_length]; exact hi)
      (by rw [avg_loss_length]; exact hi)]

/-- Entry i of the MVRV series is price i divided by the trailing
30-sample rolling mean at i. -/
theorem simulate_mvrv_getD (prices : List PFloat) (i : Nat) (hi : i < prices.length) :
    (simulate_mvrv prices).getD i PFloat.nan =
      PFloat.div (prices.getD i PFloat.nan)
        ((rollingMean 30 prices).getD i PFloat.nan) :=
  zipWith_getD _ _ _ i _ hi (by rw [rollingMean_length]; exact hi)

/-- Entry i of the MACD series is the difference of the two EMAs at i. -/
theorem macd_fst_getD (prices : List PFloat) (i : Nat) (hi : i < prices.length) :
    (calculate_macd prices).1.getD i PFloat.nan =
      PFloat.sub ((ewm 12 prices).getD i PFloat.nan)
        ((ewm 26 prices).getD i PFloat.nan) := by
  show (List.zipWith PFloat.sub (ewm 12 prices) (ewm 26 prices)).getD i PFloat.nan = _
  exact zipWith_getD _ _ _ i _ (by rw [ewm_length]; exact hi)
    (by rw [ewm_length]; exact hi)

/-- For an index below the window, the trailing average gain at that
index is NaN (the window is incomplete or still contains the NaN first
delta). -/
theorem avg_gain_nan_lt (prices : List ℚ) (w i : Nat) (hi : i < prices.length)
    (hiw : i < w) :
    (avg_gain (prices.map PFloat.fin) w).getD i PFloat.nan = PFloat.nan := by
  unfold avg_gain
  rw [rollingMean_getD _ _ i (by rw [List.length_map, diff_length, List.length_map]; exact hi)]
  by_cases hw : i + 1 < w
  · rw [if_pos hw]
  · rw [if_neg hw]
    have hiw1 : i + 1 - w = 0 := by omega
    rw [hiw1, List.drop_zero]
    cases prices with
    | nil => simp at hi
    | cons p t =>
        rw [psum_nan ?_, PFloat.nan_div]
        show PFloat.nan ∈ List.take (i + 1) (((diff (PFloat.fin p :: t.map PFloat.fin))).map PFloat.clipLower0)
        rw [show diff (PFloat.fin p :: t.map PFloat.fin) =
          PFloat.nan :: List.zipWith PFloat.sub (t.map PFloat.fin) (PFloat.fin p :: t.map PFloat.fin) from rfl]
        rw [List.map_cons, List.take_succ_cons]
        exact List.mem_cons_self _ _

/-- For an index below the window, the trailing average loss at that
index is NaN. -/
theorem avg_loss_nan_lt (prices : List ℚ) (w i : Nat) (hi : i < prices.length)
    (hiw : i < w) :
    (avg_loss (prices.map PFloat.fin) w).getD i PFloat.nan = PFloat.nan := by
  unfold avg_loss
  rw [rollingMean_getD _ _ i (by rw [List.length_map, diff_length, List.length_map]; exact hi)]
  by_cases hw : i + 1 < w
  · rw [if_pos hw]
  · rw [if_neg hw]
    have hiw1 : i + 1 - w = 0 := by omega
    rw [hiw1, List.drop_zero]
    cases prices with
    | nil => simp at hi
    | cons p t =>
        rw [psum_nan ?_, PFloat.nan_div]
        show PFloat.nan ∈ List.take (i + 1) ((diff (PFloat.fin p :: t.map PFloat.fin)).map
          (fun d => (PFloat.clipUpper0 d).neg))
        rw [show diff (PFloat.fin p :: t.map PFloat.fin) =
          PFloat.nan :: List.zipWith PFloat.sub (t.map PFloat.fin) (PFloat.fin p :: t.map PFloat.fin) from rfl]
        rw [List.map_cons, List.take_succ_cons]
        exact List.mem_cons_self _ _

/-- The frame built in the main loop has one row per price. -/
theorem buildFrame_length (prices : List PFloat) :
    (buildFrame prices).length = prices.length := by
  simp [buildFrame]

/-- Row i of the frame collects entry i of each column. -/
theorem buildFrame_getElem (prices : List PFloat) (i : Nat)
    (hi : i < (buildFrame prices).length) :
    (buildFrame prices)[i] =
      { price := prices.getD i PFloat.nan
        rsi := (calculate_rsi prices).getD i PFloat.nan
        macd := (calculate_macd prices).1.getD i PFloat.nan
        signal := (calculate_macd prices).2.getD i PFloat.nan
        mvrv := (simulate_mvrv prices).getD i PFloat.nan } := by
  simp [buildFrame]

/-- The last row of a nonempty frame. -/
theorem buildFrame_getLast (prices : List PFloat) (h : 1 ≤ prices.length) :
    (buildFrame prices).getLast? = some
      { price := prices.getD (prices.length - 1) PFloat.nan
        rsi := (calculate_rsi prices).getD (prices.length - 1) PFloat.nan
        macd := (calculate_macd prices).1.getD (prices.length - 1) PFloat.nan
        signal := (calculate_macd prices).2.getD (prices.length - 1) PFloat.nan
        mvrv := (simulate_mvrv prices).getD (prices.length - 1) PFloat.nan } := by
  have hlen : prices.length - 1 < (buildFrame prices).length := by
    rw [buildFrame_length]; omega
  rw [List.getLast?_eq_getElem?, buildFrame_length, List.getElem?_eq_getElem hlen,
    buildFrame_getElem prices (prices.length - 1) hlen]

/-- generate_report on a frame with a known last row. -/
theorem generate_report_of_getLast {frame : List FrameRow} {latest : FrameRow}
    (h : frame.getLast? = some latest) :
    generate_report frame = some
      { row := latest
        zone := rsiZone latest.rsi
        trend := macdTrend latest.macd latest.signal
        cls := mvrvClass latest.mvrv } := by
  unfold generate_report
  rw [h]

/-! ### Claim theorems -/

/-- C2: for every price series of length at least 1, calculate_rsi, both
series returned by calculate_macd, and simulate_mvrv return sequences of
exactly the same length as the input price sequence. -/
theorem indicator_series_same_length (prices : List ℚ) (h : 1 ≤ prices.length) :
    (calculate_rsi (prices.map PFloat.fin)).length = prices.length ∧
    (calculate_macd (prices.map PFloat.fin)).1.length = prices.length ∧
    (calculate_macd (prices.map PFloat.fin)).2.length = prices.length ∧
    (simulate_mvrv (prices.map PFloat.fin)).length = prices.length := by
  refine ⟨?_, ?_, ?_, ?_⟩ <;>
    simp [calculate_rsi_length, macd_length, signal_length, simulate_mvrv_length]

/-- Witness for C2 at the one-element series [100]. -/
theorem indicator_series_same_length_w :
    (calculate_rsi ([(100 : ℚ)].map PFloat.fin)).length = [(100 : ℚ)].length ∧
    (calculate_macd ([(100 : ℚ)].map PFloat.fin)).1.length = [(100 : ℚ)].length ∧
    (calculate_macd ([(100 : ℚ)].map PFloat.fin)).2.length = [(100 : ℚ)].length ∧
    (simulate_mvrv ([(100 : ℚ)].map PFloat.fin)).length = [(100 : ℚ)].length :=
  indicator_series_same_length [100] (by norm_num)

/-- C9: calculate_rsi, calculate_macd and simulate_mvrv are pure and
deterministic (two evaluations on the same input are identical) and total
on every series of length at least 1, returning same-length series with
NaN markers where history is insufficient rather than failing. -/
theorem indicators_deterministic_total (prices : List ℚ) (h : 1 ≤ prices.length) :
    (calculate_rsi (prices.map PFloat.fin) = calculate_rsi (prices.map PFloat.fin) ∧
     calculate_macd (prices.map PFloat.fin) = calculate_macd (prices.map PFloat.fin) ∧
     simulate_mvrv (prices.map PFloat.fin) = simulate_mvrv (prices.map PFloat.fin)) ∧
    ((calculate_rsi (prices.map PFloat.fin)).length = prices.length ∧
     (calculate_macd (prices.map PFloat.fin)).1.length = prices.length ∧
     (calculate_macd (prices.map PFloat.fin)).2.length = prices.length ∧
     (simulate_mvrv (prices.map PFloat.fin)).length = prices.length) := by
  refine ⟨⟨rfl, rfl, rfl⟩, ?_, ?_, ?_, ?_⟩ <;>
    simp [calculate_rsi_length, macd_length, signal_length, simulate_mvrv_length]

/-- Witness for C9 at the one-element series [100]. -/
theorem indicators_deterministic_total_w :
    (calculate_rsi ([(100 : ℚ)].map PFloat.fin) = calculate_rsi ([(100 : ℚ)].map PFloat.fin) ∧
     calculate_macd ([(100 : ℚ)].map PFloat.fin) = calculate_macd ([(100 : ℚ)].map PFloat.fin) ∧
     simulate_mvrv ([(100 : ℚ)].map PFloat.fin) = simulate_mvrv ([(100 : ℚ)].map PFloat.fin)) ∧
    ((calculate_rsi ([(100 : ℚ)].map PFloat.fin)).length = [(100 : ℚ)].length ∧
     (calculate_macd ([(100 : ℚ)].map PFloat.fin)).1.length = [(100 : ℚ)].length ∧
     (calculate_macd ([(100 : ℚ)].map PFloat.fin)).2.length = [(100 : ℚ)].length ∧
     (simulate_mvrv ([(100 : ℚ)].map PFloat.fin)).length = [(100 : ℚ)].length) :=
  indicators_deterministic_total [100] (by norm_num)

/-- C5: in calculate_macd both EMA series are seeded with the first price
(entry 0 equals price 0), and on a constant positive price series the
MACD series and the signal-line series are 0 at every index. -/
theorem macd_seed_and_const_zero (prices : List ℚ) (hne : prices ≠ [])
    (c : ℚ) (hc : 0 < c) (n : Nat) :
    (ewm 12 (prices.map PFloat.fin)).getD 0 PFloat.nan = PFloat.fin (prices.getD 0 0) ∧
    (ewm 26 (prices.map PFloat.fin)).getD 0 PFloat.nan = PFloat.fin (prices.getD 0 0) ∧
    calculate_macd (List.replicate n (PFloat.fin c)) =
      (List.replicate n (PFloat.fin 0), List.replicate n (PFloat.fin 0)) := by
  obtain ⟨p, t, rfl⟩ := List.exists_cons_of_ne_nil hne
  refine ⟨rfl, rfl, ?_⟩
  show (List.zipWith PFloat.sub (ewm 12 (List.replicate n (PFloat.fin c)))
      (ewm 26 (List.replicate n (PFloat.fin c))),
    ewm 9 (List.zipWith PFloat.sub (ewm 12 (List.replicate n (PFloat.fin c)))
      (ewm 26 (List.replicate n (PFloat.fin c))))) = _
  rw [ewm_const, ewm_const, List.zipWith_replicate, min_self,
    PFloat.sub_fin, sub_self, ewm_const]

/-- Witness for C5 at series [100] and the constant series of five 5s. -/
theorem macd_seed_and_const_zero_w :
    (ewm 12 ([(100 : ℚ)].map PFloat.fin)).getD 0 PFloat.nan = PFloat.fin ([(100 : ℚ)].getD 0 0) ∧
    (ewm 26 ([(100 : ℚ)].map PFloat.fin)).getD 0 PFloat.nan = PFloat.fin ([(100 : ℚ)].getD 0 0) ∧
    calculate_macd (List.replicate 5 (PFloat.fin 5)) =
      (List.replicate 5 (PFloat.fin 0), List.replicate 5 (PFloat.fin 0)) :=
  macd_seed_and_const_zero [100] (by simp) 5 (by norm_num) 5

/-- C6: on a constant positive price series, MVRV equals 1 at every index
where it is defined (every index with a full 30-sample window). -/
theorem mvrv_const_one (c : ℚ) (hc : 0 < c) (n i : Nat) (h29 : 29 ≤ i) (hin : i < n) :
    (simulate_mvrv (List.replicate n (PFloat.fin c))).getD i PFloat.nan = PFloat.fin 1 := by
  have hlen : i < (List.replicate n (PFloat.fin c)).length := by simpa using hin
  rw [simulate_mvrv_getD _ i hlen, rollingMean_getD _ _ i hlen, if_neg (by omega),
    List.take_replicate, List.drop_replicate,
    Nat.min_eq_left (by simpa using Nat.succ_le_of_lt hin),
    show i + 1 - (i + 1 - 30) = 30 by omega, psum_replicate,
    List.getD_eq_getElem _ _ hlen, List.getElem_replicate,
    PFloat.div_fin _ _ (by norm_num),
    show ((30 : ℕ) : ℚ) * c / ((30 : ℕ) : ℚ) = c by push_cast; field_simp,
    PFloat.div_fin c c hc.ne', div_self hc.ne']

/-- Witness for C6: a constant series of thirty 2s has MVRV 1 at index 29. -/
theorem mvrv_const_one_w :
    (simulate_mvrv (List.replicate 30 (PFloat.fin 2))).getD 29 PFloat.nan = PFloat.fin 1 :=
  mvrv_const_one 2 (by norm_num) 30 29 (by norm_num) (by norm_num)

/-- C7: the report tie-breaks on the latest row: RSI exactly 30 is
classified Neutral/Bullish, MACD exactly equal to Signal is classified
Bearish, MVRV exactly 1.0 is classified Fairly Valued. -/
theorem report_tie_breaks (frame : List FrameRow) (latest : FrameRow) (r : Report)
    (hl : frame.getLast? = some latest) (hr : generate_report frame = some r) :
    (latest.rsi = PFloat.fin 30 → r.zone = "Neutral/Bullish") ∧
    (latest.macd = latest.signal → r.trend = "Bearish") ∧
    (latest.mvrv = PFloat.fin 1 → r.cls = "Fairly Valued") := by
  rw [generate_report_of_getLast hl] at hr
  injection hr with hr
  subst hr
  refine ⟨?_, ?_, ?_⟩
  · intro h
    show rsiZone latest.rsi = _
    rw [h]
    rfl
  · intro h
    show macdTrend latest.macd latest.signal = _
    rw [h, macdTrend, PFloat.lt_irrefl, if_neg (by simp)]
  · intro h
    show mvrvClass latest.mvrv = _
    rw [h]
    rfl

/-- Witness for C7 at a one-row frame sitting exactly on all three
boundaries (RSI = 30, MACD = Signal = 5, MVRV = 1). -/
theorem report_tie_breaks_w :
    ((generate_report [⟨PFloat.fin 100, PFloat.fin 30, PFloat.fin 5, PFloat.fin 5,
        PFloat.fin 1⟩]).getD
      ⟨⟨PFloat.nan, PFloat.nan, PFloat.nan, PFloat.nan, PFloat.nan⟩, "", "", ""⟩).zone =
        "Neutral/Bullish" ∧
    ((generate_report [⟨PFloat.fin 100, PFloat.fin 30, PFloat.fin 5, PFloat.fin 5,
        PFloat.fin 1⟩]).getD
      ⟨⟨PFloat.nan, PFloat.nan, PFloat.nan, PFloat.nan, PFloat.nan⟩, "", "", ""⟩).trend =
        "Bearish" ∧
    ((generate_report [⟨PFloat.fin 100, PFloat.fin 30, PFloat.fin 5, PFloat.fin 5,
        PFloat.fin 1⟩]).getD
      ⟨⟨PFloat.nan, PFloat.nan, PFloat.nan, PFloat.nan, PFloat.nan⟩, "", "", ""⟩).cls =
        "Fairly Valued" := by
  have h := report_tie_breaks
    [⟨PFloat.fin 100, PFloat.fin 30, PFloat.fin 5, PFloat.fin 5, PFloat.fin 1⟩]
    ⟨PFloat.fin 100, PFloat.fin 30, PFloat.fin 5, PFloat.fin 5, PFloat.fin 1⟩
    { row := ⟨PFloat.fin 100, PFloat.fin 30, PFloat.fin 5, PFloat.fin 5, PFloat.fin 1⟩
      zone := rsiZone (PFloat.fin 30)
      trend := macdTrend (PFloat.fin 5) (PFloat.fin 5)
      cls := mvrvClass (PFloat.fin 1) }
    rfl rfl
  exact ⟨h.1 rfl, h.2.1 rfl, h.2.2 rfl⟩

/-- C8: the main loop processes every configured asset and the outcome
recorded for an asset depends only on that asset's own entry, so a
failure for one asset never prevents another asset's report. -/
theorem per_asset_isolation (assets : List (String × Except String (List PFloat))) :
    (runAll assets).length = assets.length ∧
    ∀ i, i < assets.length →
      (runAll assets).getD i ("", Except.error "") =
        ((assets.getD i ("", Except.error "")).1,
          processAsset (assets.getD i ("", Except.error "")).2) := by
  constructor
  · simp [runAll]
  · intro i hi
    rw [List.getD_eq_getElem _ _ (by simpa [runAll] using hi),
      List.getD_eq_getElem _ _ hi]
    simp [runAll]

/-- Witness for C8: with the Gold fetch failing, the Bitcoin entry of the
loop's outcome is still Bitcoin's own report. -/
theorem per_asset_isolation_w :
    (runAll [("Gold", Except.error "fetch failed"),
             ("Bitcoin", Except.ok [PFloat.fin 100]),
             ("Ethereum", Except.ok [PFloat.fin 50])]).getD 1 ("", Except.error "") =
      ("Bitcoin", processAsset (Except.ok [PFloat.fin 100])) :=
  (per_asset_isolation
    [("Gold", Except.error "fetch failed"),
     ("Bitcoin", Except.ok [PFloat.fin 100]),
     ("Ethereum", Except.ok [PFloat.fin 50])]).2 1 (by norm_num)

section

/- The Batteries rational arithmetic definitions are irreducible by
default, which blocks kernel evaluation of concrete witnesses; they are
restored to semireducible locally so that decide can evaluate the
embedded pipeline on concrete price lists. -/
attribute [local semireducible] Rat.add Rat.sub Rat.mul Rat.inv

/-- C3: for every positive price series, every defined (finite) entry of
calculate_rsi lies between 0 and 100. -/
theorem rsi_bounded_0_100 (prices : List ℚ) (hpos : ∀ p ∈ prices, 0 < p) :
    ∀ x ∈ calculate_rsi (prices.map PFloat.fin), ∀ q : ℚ, x = PFloat.fin q →
      0 ≤ q ∧ q ≤ 100 := by
  intro x hx q hq
  unfold calculate_rsi at hx
  obtain ⟨r, hr, rfl⟩ := List.mem_map.mp hx
  have key : ∀ a ∈ avg_gain (prices.map PFloat.fin) 14,
      ∀ b ∈ avg_loss (prices.map PFloat.fin) 14,
      rsiOf (PFloat.div a b) = PFloat.nan ∨
        ∃ q' : ℚ, rsiOf (PFloat.div a b) = PFloat.fin q' ∧ 0 ≤ q' ∧ q' ≤ 100 :=
    fun a ha b hb => rsiOf_div_cases (avg_gain_NN (by norm_num) a ha)
      (avg_loss_NN (by norm_num) b hb)
  rcases zipWith_forall (f := PFloat.div)
      (P := fun z => rsiOf z = PFloat.nan ∨
        ∃ q' : ℚ, rsiOf z = PFloat.fin q' ∧ 0 ≤ q' ∧ q' ≤ 100) key r hr with
    hnan | ⟨q', hq', h0, h100⟩
  · rw [hq] at hnan
    exact PFloat.noConfusion hnan
  · rw [hq] at hq'
    injection hq' with he
    rw [he]
    exact ⟨h0, h100⟩

/-- Witness for C3: on the ascending series 1..15 the RSI value 100 is
attained, and the theorem bounds it by [0, 100]. -/
theorem rsi_bounded_0_100_w :
    PFloat.fin 100 ∈ calculate_rsi
      (([1, 2, 3, 4, 5, 6, 7, 8, 9, 10, 11, 12, 13, 14, 15] : List ℚ).map PFloat.fin) ∧
    (0 : ℚ) ≤ 100 ∧ (100 : ℚ) ≤ 100 := by
  have hmem : PFloat.fin 100 ∈ calculate_rsi
      (([1, 2, 3, 4, 5, 6, 7, 8, 9, 10, 11, 12, 13, 14, 15] : List ℚ).map PFloat.fin) := by
    decide
  exact ⟨hmem, rsi_bounded_0_100 [1, 2, 3, 4, 5, 6, 7, 8, 9, 10, 11, 12, 13, 14, 15]
    (by decide) (PFloat.fin 100) hmem 100 rfl⟩

/-- C10: at an index where the trailing average loss is exactly 0, the
RSI is exactly 100 if the trailing average gain is positive (rs is
infinite and 100/(1+rs) collapses to 0), and is NaN (not a neutral value)
if the average gain is 0 as well. -/
theorem rsi_zero_loss_edge (prices : List ℚ) (i : Nat) (a : ℚ)
    (hg : (avg_gain (prices.map PFloat.fin) 14).getD i PFloat.nan = PFloat.fin a)
    (hl : (avg_loss (prices.map PFloat.fin) 14).getD i PFloat.nan = PFloat.fin 0) :
    (0 < a → (calculate_rsi (prices.map PFloat.fin)).getD i PFloat.nan = PFloat.fin 100) ∧
    (a = 0 → (calculate_rsi (prices.map PFloat.fin)).getD i PFloat.nan = PFloat.nan) := by
  have hi : i < (prices.map PFloat.fin).length := by
    by_contra hbig
    rw [List.getD_eq_default _ _ (by rw [avg_gain_length]; omega)] at hg
    exact PFloat.noConfusion hg
  rw [calculate_rsi_getD _ 14 i hi, hg, hl]
  constructor
  · intro ha
    rw [show PFloat.div (PFloat.fin a) (PFloat.fin 0) = PFloat.inf from by
      simp [PFloat.div, ha.ne', ha]]
    decide
  · intro ha
    subst ha
    decide

/-- Witness for C10: rising prices 1..15 give average loss 0 with positive
average gain at index 14, hence RSI exactly 100 there; the constant series
of fifteen 7s gives average gain and loss both 0 at index 14, hence NaN. -/
theorem rsi_zero_loss_edge_w :
    (calculate_rsi (([1, 2, 3, 4, 5, 6, 7, 8, 9, 10, 11, 12, 13, 14, 15] : List ℚ).map
      PFloat.fin)).getD 14 PFloat.nan = PFloat.fin 100 ∧
    (calculate_rsi ((List.replicate 15 (7 : ℚ)).map PFloat.fin)).getD 14 PFloat.nan =
      PFloat.nan := by
  constructor
  · exact (rsi_zero_loss_edge [1, 2, 3, 4, 5, 6, 7, 8, 9, 10, 11, 12, 13, 14, 15] 14 1
      (by decide) (by decide)).1 (by norm_num)
  · exact (rsi_zero_loss_edge (List.replicate 15 (7 : ℚ)) 14 0
      (by decide) (by decide)).2 rfl

/-- Counterexample to C4 as stated: on the constant 15-sample series the
RSI at index 14, an index with 14 prior deltas that the claim says is
defined, is still the undefined marker, because the window's average gain
and average loss are both 0 and 0/0 is NaN. -/
theorem rsi_window_exactness_cex :
    (calculate_rsi ((List.replicate 15 (100 : ℚ)).map PFloat.fin)).getD 14 PFloat.nan =
      PFloat.nan := by decide

/-- C4 amended: RSI is undefined at every index with fewer than 14 prior
deltas (but can also be undefined later, when the window's gains and
losses are all 0); MVRV is undefined exactly at indices with fewer than 30
trailing prices, being finite from index 29 on for positive prices; MACD
and the signal line are defined (finite) at every index. -/
theorem indicator_definedness_windows (prices : List ℚ)
    (hpos : ∀ p ∈ prices, 0 < p) :
    (∀ i < prices.length, i < 14 →
      (calculate_rsi (prices.map PFloat.fin)).getD i PFloat.nan = PFloat.nan) ∧
    (∀ i < prices.length, i < 29 →
      (simulate_mvrv (prices.map PFloat.fin)).getD i PFloat.nan = PFloat.nan) ∧
    (∀ i, 29 ≤ i → i < prices.length →
      ∃ q : ℚ, (simulate_mvrv (prices.map PFloat.fin)).getD i PFloat.nan = PFloat.fin q) ∧
    (∀ i < prices.length,
      (∃ q : ℚ,
        (calculate_macd (prices.map PFloat.fin)).1.getD i PFloat.nan = PFloat.fin q) ∧
      (∃ q : ℚ,
        (calculate_macd (prices.map PFloat.fin)).2.getD i PFloat.nan = PFloat.fin q)) := by
  have hfin : ∀ x ∈ prices.map PFloat.fin, ∃ q : ℚ, x = PFloat.fin q := by
    intro x hx
    obtain ⟨p, _, rfl⟩ := List.mem_map.mp hx
    exact ⟨p, rfl⟩
  refine ⟨?_, ?_, ?_, ?_⟩
  · intro i hi h14
    have hi' : i < (prices.map PFloat.fin).length := by simpa using hi
    rw [calculate_rsi_getD _ 14 i hi', avg_gain_nan_lt prices 14 i hi h14,
      PFloat.nan_div, rsiOf_nan]
  · intro i hi h29
    have hi' : i < (prices.map PFloat.fin).length := by simpa using hi
    rw [simulate_mvrv_getD _ i hi', rollingMean_getD _ _ i hi', if_pos (by omega),
      PFloat.div_nan]
  · intro i h29 hi
    have hi' : i < (prices.map PFloat.fin).length := by simpa using hi
    rw [simulate_mvrv_getD _ i hi', rollingMean_getD _ _ i hi', if_neg (by omega)]
    have hwin : ∀ x ∈ ((prices.map PFloat.fin).take (i + 1)).drop (i + 1 - 30),
        ∃ q : ℚ, x = PFloat.fin q ∧ 0 < q := by
      intro x hx
      obtain ⟨p, hp, rfl⟩ := List.mem_map.mp (List.mem_of_mem_take (List.mem_of_mem_drop hx))
      exact ⟨p, rfl, hpos p hp⟩
    obtain ⟨s, hs, _, hspos⟩ := psum_pos hwin
    have hwlen : (((prices.map PFloat.fin).take (i + 1)).drop (i + 1 - 30)).length = 30 := by
      rw [List.length_drop, List.length_take, List.length_map]
      omega
    have hs0 : 0 < s := hspos (by intro hnil; rw [hnil] at hwlen; simp at hwlen)
    rw [hs, PFloat.div_fin s _ (by norm_num),
      map_getD PFloat.fin prices i PFloat.nan 0 hi,
      PFloat.div_fin _ _ (div_pos hs0 (by norm_num)).ne']
    exact ⟨_, rfl⟩
  · intro i hi
    have hi' : i < (prices.map PFloat.fin).length := by simpa using hi
    have hm12 : (ewm 12 (prices.map PFloat.fin)).getD i PFloat.nan ∈
        ewm 12 (prices.map PFloat.fin) := by
      rw [List.getD_eq_getElem _ _ (by rw [ewm_length]; exact hi')]
      exact List.getElem_mem _
    have hm26 : (ewm 26 (prices.map PFloat.fin)).getD i PFloat.nan ∈
        ewm 26 (prices.map PFloat.fin) := by
      rw [List.getD_eq_getElem _ _ (by rw [ewm_length]; exact hi')]
      exact List.getElem_mem _
    obtain ⟨q1, hq1⟩ := ewm_fin hfin _ hm12
    obtain ⟨q2, hq2⟩ := ewm_fin hfin _ hm26
    constructor
    · exact ⟨q1 - q2, by rw [macd_fst_getD _ i hi', hq1, hq2, PFloat.sub_fin]⟩
    · have hmacdfin : ∀ z ∈ List.zipWith PFloat.sub (ewm 12 (prices.map PFloat.fin))
          (ewm 26 (prices.map PFloat.fin)), ∃ q : ℚ, z = PFloat.fin q :=
        zipWith_forall (f := PFloat.sub) (P := fun z => ∃ q : ℚ, z = PFloat.fin q)
          (fun a ha b hb => by
            obtain ⟨qa, rfl⟩ := ewm_fin hfin a ha
            obtain ⟨qb, rfl⟩ := ewm_fin hfin b hb
            exact ⟨qa - qb, PFloat.sub_fin qa qb⟩)
      have hm9 : (calculate_macd (prices.map PFloat.fin)).2.getD i PFloat.nan ∈
          ewm 9 (List.zipWith PFloat.sub (ewm 12 (prices.map PFloat.fin))
            (ewm 26 (prices.map PFloat.fin))) := by
        show (ewm 9 (List.zipWith PFloat.sub (ewm 12 (prices.map PFloat.fin))
          (ewm 26 (prices.map PFloat.fin)))).getD i PFloat.nan ∈ _
        rw [List.getD_eq_getElem _ _ (by
          rw [ewm_length, List.length_zipWith, ewm_length, ewm_length]
          simp only [min_self]
          exact hi')]
        exact List.getElem_mem _
      exact ewm_fin hmacdfin _ hm9

/-- Witness for C4 at the constant positive 30-sample series: RSI is NaN
at index 0 and MVRV is finite at index 29. -/
theorem indicator_definedness_windows_w :
    (calculate_rsi ((List.replicate 30 (2 : ℚ)).map PFloat.fin)).getD 0 PFloat.nan =
      PFloat.nan ∧
    ∃ q : ℚ, (simulate_mvrv ((List.replicate 30 (2 : ℚ)).map PFloat.fin)).getD 29
      PFloat.nan = PFloat.fin q := by
  have h := indicator_definedness_windows (List.replicate 30 (2 : ℚ)) (by decide)
  exact ⟨h.1 0 (by decide) (by decide), h.2.2.1 29 (by norm_num) (by decide)⟩

/-- Counterexample to C1 as stated: on the one-sample series [100] the
latest row has undefined RSI and MVRV, yet generate_report does not fail
with any error: it produces (and the main loop delivers) a complete
report carrying the NaN markers, classified through False NaN
comparisons. -/
theorem short_series_no_failure_cex :
    generate_report (buildFrame [PFloat.fin 100]) =
      some { row := ⟨PFloat.fin 100, PFloat.nan, PFloat.fin 0, PFloat.fin 0, PFloat.nan⟩
             zone := "Neutral/Bullish"
             trend := "Bearish"
             cls := "Fairly Valued" } := by decide

/-- C1 amended: for every price series with 1 ≤ length < 30, formatting
the latest report does not fail: generate_report succeeds and produces a
report whose latest row carries an undefined (NaN) MVRV value, classified
as Fairly Valued because the NaN comparison is False; no ComputationError
is raised anywhere. -/
theorem short_series_report_delivered (prices : List ℚ) (h1 : 1 ≤ prices.length)
    (h30 : prices.length < 30) :
    ∃ r : Report, generate_report (buildFrame (prices.map PFloat.fin)) = some r ∧
      r.row.mvrv = PFloat.nan ∧ r.cls = "Fairly Valued" := by
  have hlen : 1 ≤ (prices.map PFloat.fin).length := by simpa using h1
  have hi : (prices.map PFloat.fin).length - 1 < (prices.map PFloat.fin).length := by
    rw [List.length_map]
    omega
  have hmvrv : (simulate_mvrv (prices.map PFloat.fin)).getD
      ((prices.map PFloat.fin).length - 1) PFloat.nan = PFloat.nan := by
    rw [simulate_mvrv_getD _ _ hi, rollingMean_getD _ _ _ hi,
      if_pos (by rw [List.length_map]; omega), PFloat.div_nan]
  refine ⟨_, generate_report_of_getLast (buildFrame_getLast _ hlen), hmvrv, ?_⟩
  show mvrvClass ((simulate_mvrv (prices.map PFloat.fin)).getD
    ((prices.map PFloat.fin).length - 1) PFloat.nan) = _
  rw [hmvrv]
  rfl

/-- Witness for C1 (amended): the series [100] yields a delivered report
rather than a failure. -/
theorem short_series_report_delivered_w :
    generate_report (buildFrame ([(100 : ℚ)].map PFloat.fin)) ≠ none := by
  obtain ⟨r, hr, -, -⟩ := short_series_report_delivered [100] (by norm_num) (by norm_num)
  intro hnone
  rw [hr] at hnone
  exact Option.noConfusion hnone

end
